import Mathlib

/-!
Verification of the fetch pipeline in `src/servers/fetch/main.py`.

Text is modelled as `List Char` (Python strings are sequences of code points,
and `len`/slicing count code points). Calls into third-party libraries
(`requests`, `Protego`, `readabilipy`, `markdownify`) are modelled as explicit
inputs packaged in a `NetEnv` environment, so that every function of the
module becomes a pure Lean function of its inputs.
-/

/-- Characters removed by the URL parser of the Python standard library
before splitting (tab, carriage return, newline are stripped from URLs). -/
def keepChar (c : Char) : Bool := !(c == '\t' || c == '\r' || c == '\n')

/-- C0 control characters and space, stripped from the front of a URL by
`urlsplit` per the WHATWG URL specification. -/
def isC0OrSpace (c : Char) : Bool := c.toNat ≤ 32

/-- ASCII letter test, as used by the scheme guard of `urlsplit`. -/
def isAsciiAlpha (c : Char) : Bool :=
  (65 ≤ c.toNat && c.toNat ≤ 90) || (97 ≤ c.toNat && c.toNat ≤ 122)

/-- Preprocessing of `urlsplit`: strip leading control characters and
spaces, then remove every tab, carriage return and newline. The model omits
the IPv6-bracket and NFKC hostname validations of `urlsplit`, which raise
on a handful of malformed netlocs; such netlocs are treated as ordinary
character runs here. -/
def sanitizeUrl (l : List Char) : List Char := (l.dropWhile isC0OrSpace).filter keepChar

/-- Membership in the `scheme_chars` set of `urllib.parse`: ASCII letters,
digits, and the three characters plus, hyphen, dot. Stated on code points. -/
def isSchemeChar (c : Char) : Bool :=
  (65 ≤ c.toNat && c.toNat ≤ 90) || (97 ≤ c.toNat && c.toNat ≤ 122) ||
  (48 ≤ c.toNat && c.toNat ≤ 57) || c.toNat == 43 || c.toNat == 45 || c.toNat == 46

/-- Characters that may appear in a netloc: everything up to the first
slash, question mark or hash sign ends the netloc in `urlsplit`. -/
def netlocChar (c : Char) : Bool := !(c == '/' || c == '?' || c == '#')

/-- Split a list at the first occurrence of `ch`: returns the part before it
and the part after it, or `none` when `ch` does not occur. This mirrors
`str.find` followed by slicing in `urllib.parse`. -/
def splitFirst (ch : Char) (l : List Char) : Option (List Char × List Char) :=
  match l.dropWhile (fun c => c != ch) with
  | [] => none
  | _ :: rest => some (l.takeWhile (fun c => c != ch), rest)

/-- Scheme extraction of `urlsplit`: when a colon occurs at a positive
index, the first character is an ASCII letter, and every character before
the colon is a scheme character, the scheme is that lowercased segment;
otherwise no scheme is split off. -/
def splitScheme (l : List Char) : List Char × List Char :=
  match splitFirst ':' l with
  | none => ([], l)
  | some (pre, post) =>
    if (match pre with
        | [] => false
        | c :: _ => isAsciiAlpha c && pre.all isSchemeChar) then
      (pre.map Char.toLower, post)
    else ([], l)

/-- Netloc extraction of `urlsplit`: when the remainder starts with two
slashes, the netloc is everything up to the next slash, question mark or
hash sign. -/
def splitNetloc (l : List Char) : List Char × List Char :=
  if l.take 2 = ['/', '/'] then
    ((l.drop 2).takeWhile netlocChar, (l.drop 2).dropWhile netlocChar)
  else ([], l)

/-- Fragment extraction of `urlsplit`: split at the first hash sign. -/
def splitFragment (l : List Char) : List Char × List Char :=
  match splitFirst '#' l with
  | none => (l, [])
  | some (a, b) => (a, b)

/-- Query extraction of `urlsplit`: split at the first question mark. -/
def splitQuery (l : List Char) : List Char × List Char :=
  match splitFirst '?' l with
  | none => (l, [])
  | some (a, b) => (a, b)

/-- Result of `urllib.parse.urlparse`: the six named components. -/
structure ParseResult where
  scheme : List Char
  netloc : List Char
  path : List Char
  params : List Char
  query : List Char
  fragment : List Char
deriving DecidableEq

/-- Model of `urllib.parse.urlsplit` (params always empty at this stage):
strip unsafe characters, then split off scheme, netloc, fragment, query in
that order. -/
def urlsplit (url : List Char) : ParseResult :=
  let u := sanitizeUrl url
  let s := splitScheme u
  let n := splitNetloc s.2
  let f := splitFragment n.2
  let q := splitQuery f.1
  ⟨s.1, n.1, q.1, [], q.2, f.2⟩

/-- Model of `urllib.parse._splitparams`: parameters are split at the first
semicolon of the last path segment (or of the whole path when it has no
slash). -/
def splitParams (pathStr : List Char) : List Char × List Char :=
  if pathStr.contains '/' then
    let lastSeg := (pathStr.reverse.takeWhile (fun c => c != '/')).reverse
    let beforeSeg := (pathStr.reverse.dropWhile (fun c => c != '/')).reverse
    match splitFirst ';' lastSeg with
    | none => (pathStr, [])
    | some (a, b) => (beforeSeg ++ a, b)
  else
    match splitFirst ';' pathStr with
    | none => (pathStr, [])
    | some (a, b) => (a, b)

/-- Model of `urllib.parse.urlparse`: `urlsplit` followed by params
splitting when the path contains a semicolon. -/
def urlparse (url : List Char) : ParseResult :=
  let r := urlsplit url
  if r.path.contains ';' then
    let pp := splitParams r.path
    ⟨r.scheme, r.netloc, pp.1, pp.2, r.query, r.fragment⟩
  else r

/-- Model of `urllib.parse.urlunsplit`: reassemble scheme, netloc, path,
query and fragment, inserting the separators only for nonempty parts. -/
def urlunsplit (scheme netloc pathStr query fragment : List Char) : List Char :=
  let u1 := pathStr
  let u2 :=
    if netloc ≠ [] ∨ (u1 ≠ [] ∧ u1.take 2 = ['/', '/']) then
      '/' :: '/' :: (netloc ++ (if u1 ≠ [] ∧ u1.head? ≠ some '/' then '/' :: u1 else u1))
    else u1
  let u3 := if scheme ≠ [] then scheme ++ ':' :: u2 else u2
  let u4 := if query ≠ [] then u3 ++ '?' :: query else u3
  if fragment ≠ [] then u4 ++ '#' :: fragment else u4

/-- Model of `urllib.parse.urlunparse`: attach params to the path with a
semicolon, then `urlunsplit`. -/
def urlunparse (scheme netloc pathStr params query fragment : List Char) : List Char :=
  urlunsplit scheme netloc (if params ≠ [] then pathStr ++ ';' :: params else pathStr)
    query fragment

/-- Embeds `get_robots_txt_url` (main.py lines 29 to 32): parse the URL and
reassemble it with path `/robots.txt` and empty params, query, fragment. -/
def get_robots_txt_url (url : List Char) : List Char :=
  let parsed := urlparse url
  urlunparse parsed.scheme parsed.netloc ("/robots.txt".data) [] [] []

/-- Embeds the constant DEFAULT_USER_AGENT_AUTONOMOUS of main.py. -/
def DEFAULT_USER_AGENT_AUTONOMOUS : List Char :=
  "ModelContextProtocol/1.0 (Autonomous; +https://github.com/modelcontextprotocol/servers)".data

/-- Embeds the constant DEFAULT_USER_AGENT_MANUAL of main.py. -/
def DEFAULT_USER_AGENT_MANUAL : List Char :=
  "ModelContextProtocol/1.0 (User-Specified; +https://github.com/modelcontextprotocol/servers)".data

/-- Sentinel string returned by `extract_content_from_html` when extraction
yields no usable content (main.py line 21, verbatim). -/
def simplificationSentinel : List Char :=
  "<e>Page failed to be simplified from HTML<e>".data

/-- Embeds `extract_content_from_html` (main.py lines 15 to 26). The calls
into readabilipy and markdownify are third-party: they are passed in as
functions. readabilipy returns a content field that may be absent (None);
the Python code tests it for falsiness, which also catches the empty
string, before rendering with markdownify. -/
def extract_content_from_html (readability : List Char → Option (List Char))
    (mdify : List Char → List Char) (html : List Char) : List Char :=
  match readability html with
  | none => simplificationSentinel
  | some content => if content = [] then simplificationSentinel else mdify content

/-- An HTTP response as observed by the code: status code, the optional
content-type header, and the body text. -/
structure Response where
  statusCode : Nat
  contentType : Option (List Char)
  body : List Char
deriving DecidableEq

/-- Environment packaging the outcomes of all third-party calls.
`robotsOutcome` maps the robots URL to the combined outcome of
`requests.get` plus `Protego.parse` plus `can_fetch`: an error when
retrieval or parsing raised, otherwise the boolean verdict of `can_fetch`.
`targetResponse` is the response of `requests.get` on the target URL.
`readability` and `markdownify` are the extraction libraries. -/
structure NetEnv where
  robotsOutcome : List Char → Except Unit Bool
  targetResponse : Response
  readability : List Char → Option (List Char)
  markdownify : List Char → List Char

/-- Errors surfaced by the pipeline. `policyDenied` is the ValueError raised
inside `check_may_autonomously_fetch_url`; `robotsFetchFailed` stands for an
exception escaping the robots retrieval or parse; `httpStatus` is the
HTTPError raised by `Response.raise_for_status` of the requests library,
which carries the status code and attaches the response whose body is the
full body text. -/
inductive FetchError where
  | policyDenied (message : List Char)
  | robotsFetchFailed
  | httpStatus (statusCode : Nat) (carriedBody : List Char)
deriving DecidableEq

/-- Lowercasing of a string, code point by code point, as `str.lower` does
on ASCII input. -/
def lowerStr (l : List Char) : List Char := l.map Char.toLower

/-- Substring test: the Python `in` operator on strings. -/
def containsSub (needle haystack : List Char) : Bool :=
  match haystack with
  | [] => needle.isEmpty
  | c :: t => needle.isPrefixOf (c :: t) || containsSub needle t

/-- Content classification implicit in main.py lines 55 to 56: the lowercased
content-type header (empty when absent) containing the substring text/html
selects Html, anything else selects Other. -/
inductive ContentClass where
  | Html
  | Other
deriving DecidableEq

/-- Classification step of `fetch_url`, as a named two-way branch. -/
def classify (contentType : Option (List Char)) : ContentClass :=
  if containsSub ("text/html".data) (lowerStr (contentType.getD [])) then
    ContentClass.Html
  else ContentClass.Other

/-- Embeds `fetch_url` (main.py lines 49 to 58). `raise_for_status` of the
requests library raises exactly for status codes in [400, 600); the raised
HTTPError carries the status code and the attached response body. Otherwise
the content-type header (defaulted to the empty string, lowercased) selects
HTML simplification unless `force_raw` is set. -/
def fetch_url (env : NetEnv) (user_agent : List Char) (force_raw : Bool) :
    Except FetchError (List Char) :=
  let response := env.targetResponse
  if 400 ≤ response.statusCode ∧ response.statusCode < 600 then
    Except.error (.httpStatus response.statusCode response.body)
  else
    let content_type := lowerStr (response.contentType.getD [])
    if !force_raw && containsSub ("text/html".data) content_type then
      Except.ok (extract_content_from_html env.readability env.markdownify response.body)
    else
      Except.ok response.body

/-- Embeds `check_may_autonomously_fetch_url` (main.py lines 35 to 46). The
whole body sits inside a try block whose except clause catches every
exception and passes, including the ValueError the function itself raises
on a negative `can_fetch` verdict. The inner `attempt` value is the try
block; the outer match is the except clause. -/
def check_may_autonomously_fetch_url (env : NetEnv) (url user_agent : List Char) :
    Except FetchError Unit :=
  let robots_txt_url := get_robots_txt_url url
  let attempt : Except FetchError Unit :=
    match env.robotsOutcome robots_txt_url with
    | Except.error _ => Except.error FetchError.robotsFetchFailed
    | Except.ok can_fetch =>
      if can_fetch then Except.ok ()
      else
        Except.error (FetchError.policyDenied
          (("URL ".data) ++ url ++ (" is not allowed to be fetched by ".data) ++
            user_agent ++ (" according to robots.txt".data)))
  match attempt with
  | Except.error _ => Except.ok ()
  | Except.ok _ => Except.ok ()

/-- Pagination step of `fetch` (main.py lines 109 to 112): empty string once
the start index reaches the end of the content, otherwise the slice
`content[start_index : start_index + max_length]`. -/
def paginate (content : List Char) (start_index max_length : Nat) : List Char :=
  if content.length ≤ start_index then []
  else (content.drop start_index).take max_length

/-- Embeds the `fetch` tool (main.py lines 95 to 112): robots check, target
retrieval, then pagination of the resulting content. -/
def fetch (env : NetEnv) (url : List Char) (max_length start_index : Nat)
    (raw : Bool) : Except FetchError (List Char) :=
  match check_may_autonomously_fetch_url env url DEFAULT_USER_AGENT_AUTONOMOUS with
  | Except.error e => Except.error e
  | Except.ok _ =>
    match fetch_url env DEFAULT_USER_AGENT_AUTONOMOUS raw with
    | Except.error e => Except.error e
    | Except.ok content => Except.ok (paginate content start_index max_length)

/-- Truncated copy test: `t` is a strict prefix of `s`, so it is a copy of
the front of `s` that was cut short. -/
def isTruncatedCopyOf (t s : List Char) : Bool :=
  t.isPrefixOf s && decide (t.length < s.length)

/-- Environment for the robots code-bug scenario: robots.txt is retrieved
and parsed successfully and `can_fetch` resolves to false; the target
responds 200 with a plain-text body. -/
def robotsDeniedEnv : NetEnv where
  robotsOutcome := fun _ => Except.ok false
  targetResponse :=
    { statusCode := 200, contentType := some ("text/plain".data),
      body := "TARGET PAGE CONTENT".data }
  readability := fun _ => none
  markdownify := fun l => l

/-- Environment where the robots retrieval itself fails (connection refused)
and the target responds 200 with a body and no content-type header. -/
def robotsErrorEnv : NetEnv where
  robotsOutcome := fun _ => Except.error ()
  targetResponse := { statusCode := 200, contentType := none, body := "HELLO WORLD".data }
  readability := fun _ => none
  markdownify := fun l => l

/-- Response used for the HTTP status error scenario: a 404 with a body. -/
def notFoundResponse : Response :=
  { statusCode := 404, contentType := none, body := "NOT FOUND BODY".data }

/-- Environment delivering `notFoundResponse` from the target URL. -/
def notFoundEnv : NetEnv where
  robotsOutcome := fun _ => Except.ok true
  targetResponse := notFoundResponse
  readability := fun _ => none
  markdownify := fun l => l

/-- Environment with a JSON response, for the classification scenario. -/
def jsonEnv : NetEnv where
  robotsOutcome := fun _ => Except.ok true
  targetResponse :=
    { statusCode := 200, contentType := some ("application/json".data),
      body := "JSON BODY".data }
  readability := fun _ => none
  markdownify := fun l => l

/-- Environment with a short plain response, for the length bound scenario. -/
def shortBodyEnv : NetEnv where
  robotsOutcome := fun _ => Except.ok true
  targetResponse := { statusCode := 200, contentType := none, body := "abcdefgh".data }
  readability := fun _ => none
  markdownify := fun l => l

/-! Character-level lemmas about lowercasing and the character classes. -/

theorem toLower_eval (c : Char) (h : 65 ≤ c.toNat ∧ c.toNat ≤ 90) :
    (Char.toLower c).toNat = c.toNat + 32 := by
  have hlt : c.toNat + 32 < 55296 := by omega
  simp only [Char.toLower, ge_iff_le, if_pos h]
  rw [Char.ofNat, dif_pos (Or.inl hlt)]
  simp [Char.ofNatAux, Char.toNat, UInt32.toNat, BitVec.toNat_ofNatLt]

theorem toLower_fix (c : Char) (h : ¬(65 ≤ c.toNat ∧ c.toNat ≤ 90)) :
    Char.toLower c = c := by
  simp only [Char.toLower, ge_iff_le, if_neg h]

theorem toLower_idem (c : Char) : Char.toLower (Char.toLower c) = Char.toLower c := by
  by_cases h : 65 ≤ c.toNat ∧ c.toNat ≤ 90
  · have h1 := toLower_eval c h
    apply toLower_fix
    omega
  · rw [toLower_fix c h, toLower_fix c h]

theorem schemeChar_toLower (c : Char) (h : isSchemeChar c = true) :
    isSchemeChar (Char.toLower c) = true := by
  by_cases hu : 65 ≤ c.toNat ∧ c.toNat ≤ 90
  · have h1 := toLower_eval c hu
    simp only [isSchemeChar, Bool.or_eq_true, Bool.and_eq_true, decide_eq_true_eq, beq_iff_eq]
    omega
  · rw [toLower_fix c hu]; exact h

theorem asciiAlpha_toLower (c : Char) (h : isAsciiAlpha c = true) :
    isAsciiAlpha (Char.toLower c) = true := by
  by_cases hu : 65 ≤ c.toNat ∧ c.toNat ≤ 90
  · have h1 := toLower_eval c hu
    simp only [isAsciiAlpha, Bool.or_eq_true, Bool.and_eq_true, decide_eq_true_eq]
    omega
  · rw [toLower_fix c hu]; exact h

theorem keepChar_of_schemeChar (c : Char) (h : isSchemeChar c = true) :
    keepChar c = true := by
  simp only [isSchemeChar, Bool.or_eq_true, Bool.and_eq_true, decide_eq_true_eq,
    beq_iff_eq] at h
  simp only [keepChar, Bool.or_eq_true, Bool.not_eq_true', Bool.or_eq_false_iff,
    beq_eq_false_iff_ne]
  refine ⟨⟨?_, ?_⟩, ?_⟩ <;> rintro rfl <;> revert h <;> decide

theorem notC0_of_alpha (c : Char) (h : isAsciiAlpha c = true) :
    isC0OrSpace c = false := by
  simp only [isAsciiAlpha, Bool.or_eq_true, Bool.and_eq_true, decide_eq_true_eq] at h
  simp only [isC0OrSpace, decide_eq_false_iff_not]
  omega

/-! Lemmas about the splitting helpers of the URL parser. -/

theorem splitFirst_append (ch : Char) (a b : List Char)
    (h : ∀ c ∈ a, (c != ch) = true) :
    splitFirst ch (a ++ ch :: b) = some (a, b) := by
  unfold splitFirst
  rw [List.dropWhile_append_of_pos h, List.takeWhile_append_of_pos h,
    List.dropWhile_cons_of_neg (by simp), List.takeWhile_cons_of_neg (by simp)]
  simp

theorem splitFirst_some_fst {ch : Char} {l pre post : List Char}
    (h : splitFirst ch l = some (pre, post)) :
    pre = l.takeWhile (fun c => c != ch) := by
  unfold splitFirst at h
  cases hd : l.dropWhile (fun c => c != ch) with
  | nil =>
    simp only [hd] at h
    exact Option.noConfusion h
  | cons x rest =>
    simp only [hd, Option.some.injEq, Prod.mk.injEq] at h
    exact h.1.symm

theorem splitFirst_snd_sublist {ch : Char} {l pre post : List Char}
    (h : splitFirst ch l = some (pre, post)) :
    post.Sublist l := by
  unfold splitFirst at h
  cases hd : l.dropWhile (fun c => c != ch) with
  | nil =>
    simp only [hd] at h
    exact Option.noConfusion h
  | cons x rest =>
    simp only [hd, Option.some.injEq, Prod.mk.injEq] at h
    have h1 : rest.Sublist (x :: rest) := List.sublist_cons_self x rest
    have h2 : (x :: rest).Sublist l := hd ▸ List.dropWhile_sublist _
    exact h.2 ▸ h1.trans h2

theorem splitScheme_append (s rest : List Char) (hne : s ≠ [])
    (hall : ∀ c ∈ s, isSchemeChar c = true)
    (hhead : isAsciiAlpha s.headI = true)
    (hlow : s.map Char.toLower = s) :
    splitScheme (s ++ ':' :: rest) = (s, rest) := by
  have hcolon : ∀ c ∈ s, (c != ':') = true := by
    intro c hc
    have h1 := hall c hc
    rw [bne_iff_ne]
    rintro rfl
    exact absurd h1 (by decide)
  have h1 : splitFirst ':' (s ++ ':' :: rest) = some (s, rest) :=
    splitFirst_append ':' s rest hcolon
  obtain ⟨c, s', rfl⟩ : ∃ c s', s = c :: s' := by
    cases s with
    | nil => exact absurd rfl hne
    | cons a t => exact ⟨a, t, rfl⟩
  simp only [splitScheme, h1]
  rw [if_pos]
  · rw [hlow]
  · simp only [List.headI] at hhead
    simp only [hhead, Bool.true_and, List.all_eq_true]
    intro c hc
    exact hall c hc

theorem splitScheme_head_fail (c : Char) (t : List Char) (hc : isAsciiAlpha c = false) :
    splitScheme (c :: t) = ([], c :: t) := by
  cases h1 : splitFirst ':' (c :: t) with
  | none => simp only [splitScheme, h1]
  | some pr =>
    obtain ⟨pre, post⟩ := pr
    have hpre := splitFirst_some_fst h1
    simp only [splitScheme, h1]
    rw [List.takeWhile_cons] at hpre
    rw [if_neg]
    by_cases hct : ((c != ':') = true)
    · rw [if_pos hct] at hpre
      subst hpre
      simp [hc]
    · rw [if_neg hct] at hpre
      subst hpre
      simp

theorem splitScheme_fst_spec (l : List Char) :
    (splitScheme l).1 = [] ∨
    ((splitScheme l).1 ≠ [] ∧ (∀ c ∈ (splitScheme l).1, isSchemeChar c = true) ∧
      isAsciiAlpha (splitScheme l).1.headI = true ∧
      ((splitScheme l).1.map Char.toLower = (splitScheme l).1)) := by
  cases h1 : splitFirst ':' l with
  | none => simp only [splitScheme, h1]; exact Or.inl trivial
  | some pr =>
    obtain ⟨pre, post⟩ := pr
    simp only [splitScheme, h1]
    cases pre with
    | nil => simp
    | cons c pre' =>
      by_cases hcond : ((isAsciiAlpha c && (c :: pre').all isSchemeChar) = true)
      · rw [if_pos hcond]
        simp only [Bool.and_eq_true, List.all_eq_true] at hcond
        obtain ⟨halpha, hall⟩ := hcond
        refine Or.inr ⟨by simp, ?_, ?_, ?_⟩
        · intro x hx
          simp only [List.mem_map] at hx
          obtain ⟨d, hd, rfl⟩ := hx
          exact schemeChar_toLower d (hall d hd)
        · simp only [List.map_cons, List.headI]
          exact asciiAlpha_toLower c halpha
        · rw [List.map_map]
          exact List.map_congr_left (fun d _ => toLower_idem d)
      · rw [if_neg hcond]
        exact Or.inl rfl

theorem splitScheme_snd_sublist (l : List Char) : (splitScheme l).2.Sublist l := by
  cases h1 : splitFirst ':' l with
  | none => simp only [splitScheme, h1]; exact List.Sublist.refl l
  | some pr =>
    obtain ⟨pre, post⟩ := pr
    simp only [splitScheme, h1]
    split
    · exact splitFirst_snd_sublist h1
    · exact List.Sublist.refl l

theorem splitNetloc_cc (n t : List Char) (hn : ∀ c ∈ n, netlocChar c = true) :
    splitNetloc ('/' :: '/' :: (n ++ '/' :: t)) = (n, '/' :: t) := by
  unfold splitNetloc
  rw [if_pos (by simp)]
  have hslash : ¬(netlocChar '/' = true) := by decide
  simp only [List.drop_succ_cons, List.drop_zero]
  rw [List.takeWhile_append_of_pos hn, List.dropWhile_append_of_pos hn,
    List.takeWhile_cons_of_neg hslash, List.dropWhile_cons_of_neg hslash]
  simp

theorem splitNetloc_fst_pred (l : List Char) :
    ∀ c ∈ (splitNetloc l).1, netlocChar c = true := by
  unfold splitNetloc
  split
  · intro c hc
    exact List.mem_takeWhile_imp hc
  · intro c hc
    simp at hc

theorem splitNetloc_fst_sublist (l : List Char) : (splitNetloc l).1.Sublist l := by
  unfold splitNetloc
  split
  · exact (List.takeWhile_sublist _).trans (List.drop_sublist 2 l)
  · exact List.nil_sublist l

/-! Facts about the components produced by urlsplit and urlparse. -/

theorem urlparse_scheme_eq (u : List Char) : (urlparse u).scheme = (urlsplit u).scheme := by
  simp only [urlparse]
  split <;> rfl

theorem urlparse_netloc_eq (u : List Char) : (urlparse u).netloc = (urlsplit u).netloc := by
  simp only [urlparse]
  split <;> rfl

theorem urlsplit_scheme_spec (u : List Char) :
    (urlsplit u).scheme = [] ∨
    ((urlsplit u).scheme ≠ [] ∧ (∀ c ∈ (urlsplit u).scheme, isSchemeChar c = true) ∧
      isAsciiAlpha (urlsplit u).scheme.headI = true ∧
      ((urlsplit u).scheme.map Char.toLower = (urlsplit u).scheme)) :=
  splitScheme_fst_spec (sanitizeUrl u)

theorem urlsplit_netloc_pred (u : List Char) :
    ∀ c ∈ (urlsplit u).netloc, netlocChar c = true :=
  fun c hc => splitNetloc_fst_pred _ c hc

theorem urlsplit_netloc_keep (u : List Char) :
    ∀ c ∈ (urlsplit u).netloc, keepChar c = true := by
  intro c hc
  have h1 : c ∈ (splitNetloc (splitScheme (sanitizeUrl u)).2).1 := hc
  have h2 : c ∈ (splitScheme (sanitizeUrl u)).2 :=
    (splitNetloc_fst_sublist _).subset h1
  have h3 : c ∈ sanitizeUrl u := (splitScheme_snd_sublist _).subset h2
  exact List.of_mem_filter h3

/-! Normal forms of the reassembled robots URL, by emptiness of scheme and
netloc. -/

theorem urlunparse_robots_nil :
    urlunparse [] [] ("/robots.txt".data) [] [] [] = "/robots.txt".data := by
  decide

theorem urlunparse_robots_s (s : List Char) (hs : s ≠ []) :
    urlunparse s [] ("/robots.txt".data) [] [] [] = s ++ ':' :: "/robots.txt".data := by
  have h2 : ¬(("/robots.txt".data ≠ ([] : List Char)) ∧
      (List.take 2 "/robots.txt".data) = ['/', '/']) := by decide
  simp [urlunparse, urlunsplit, hs, h2]

theorem urlunparse_robots_n (n : List Char) (hn : n ≠ []) :
    urlunparse [] n ("/robots.txt".data) [] [] [] =
      '/' :: '/' :: (n ++ "/robots.txt".data) := by
  have h3 : ¬(("/robots.txt".data ≠ ([] : List Char)) ∧
      ("/robots.txt".data).head? ≠ some '/') := by decide
  simp [urlunparse, urlunsplit, hn, h3]

theorem urlunparse_robots_sn (s n : List Char) (hs : s ≠ []) (hn : n ≠ []) :
    urlunparse s n ("/robots.txt".data) [] [] [] =
      s ++ ':' :: '/' :: '/' :: (n ++ "/robots.txt".data) := by
  have h3 : ¬(("/robots.txt".data ≠ ([] : List Char)) ∧
      ("/robots.txt".data).head? ≠ some '/') := by decide
  simp [urlunparse, urlunsplit, hs, hn, h3]

/-! Round trip: parsing the reassembled robots URL recovers the scheme, the
netloc, and the path /robots.txt. -/

theorem keepChar_robots_path : ∀ c ∈ "/robots.txt".data, keepChar c = true := by decide

theorem robots_path_cons : "/robots.txt".data = '/' :: "robots.txt".data := rfl

theorem sanitize_eq_self (l : List Char)
    (hhead : ∀ c, l.head? = some c → isC0OrSpace c = false)
    (hkeep : ∀ c ∈ l, keepChar c = true) :
    sanitizeUrl l = l := by
  unfold sanitizeUrl
  have h1 : l.dropWhile isC0OrSpace = l := by
    cases l with
    | nil => rfl
    | cons a t =>
      rw [List.dropWhile_cons_of_neg]
      simp [hhead a rfl]
  rw [h1, List.filter_eq_self.mpr hkeep]

theorem splitNetloc_robots_path :
    splitNetloc ("/robots.txt".data) = ([], "/robots.txt".data) := by decide

theorem splitFragment_robots_path :
    splitFragment ("/robots.txt".data) = ("/robots.txt".data, []) := by decide

theorem splitQuery_robots_path :
    splitQuery ("/robots.txt".data) = ("/robots.txt".data, []) := by decide

theorem robots_path_no_semi : ("/robots.txt".data).contains ';' = false := by decide

theorem urlparse_of_urlsplit_robots (u s n : List Char)
    (h : urlsplit u = ⟨s, n, "/robots.txt".data, [], [], []⟩) :
    urlparse u = ⟨s, n, "/robots.txt".data, [], [], []⟩ := by
  simp only [urlparse, h, robots_path_no_semi]
  rfl

theorem robots_reparse (s n : List Char)
    (hs : s = [] ∨ (s ≠ [] ∧ (∀ c ∈ s, isSchemeChar c = true) ∧
      isAsciiAlpha s.headI = true ∧ s.map Char.toLower = s))
    (hn_pred : ∀ c ∈ n, netlocChar c = true)
    (hn_keep : ∀ c ∈ n, keepChar c = true) :
    urlparse (urlunparse s n ("/robots.txt".data) [] [] []) =
      ⟨s, n, "/robots.txt".data, [], [], []⟩ := by
  by_cases hn : n = []
  · subst hn
    rcases hs with rfl | ⟨hne, hall, hhead, hlow⟩
    · decide
    · rw [urlunparse_robots_s s hne]
      apply urlparse_of_urlsplit_robots
      obtain ⟨a, s', rfl⟩ : ∃ a s', s = a :: s' := by
        cases s with
        | nil => exact absurd rfl hne
        | cons x t => exact ⟨x, t, rfl⟩
      simp only [List.headI] at hhead
      have hsan : sanitizeUrl ((a :: s') ++ ':' :: "/robots.txt".data) =
          (a :: s') ++ ':' :: "/robots.txt".data := by
        apply sanitize_eq_self
        · intro c hc
          simp only [List.cons_append, List.head?_cons, Option.some.injEq] at hc
          subst hc
          exact notC0_of_alpha a hhead
        · intro c hc
          rcases List.mem_append.mp hc with h1 | h1
          · exact keepChar_of_schemeChar c (hall c h1)
          · rcases List.mem_cons.mp h1 with rfl | h2
            · decide
            · exact keepChar_robots_path c h2
      have hscheme : splitScheme ((a :: s') ++ ':' :: "/robots.txt".data) =
          (a :: s', "/robots.txt".data) :=
        splitScheme_append (a :: s') _ hne hall (by simpa [List.headI] using hhead) hlow
      simp only [urlsplit, hsan, hscheme]
      simp only [ParseResult.mk.injEq]
      refine ⟨?_, ?_, ?_, ?_, ?_, ?_⟩ <;> trivial
  · rcases hs with rfl | ⟨hne, hall, hhead, hlow⟩
    · rw [urlunparse_robots_n n hn]
      apply urlparse_of_urlsplit_robots
      have hsan : sanitizeUrl ('/' :: '/' :: (n ++ "/robots.txt".data)) =
          '/' :: '/' :: (n ++ "/robots.txt".data) := by
        apply sanitize_eq_self
        · intro c hc
          simp only [List.head?_cons, Option.some.injEq] at hc
          subst hc
          decide
        · intro c hc
          rcases List.mem_cons.mp hc with rfl | h1
          · decide
          · rcases List.mem_cons.mp h1 with rfl | h2
            · decide
            · rcases List.mem_append.mp h2 with h3 | h3
              · exact hn_keep c h3
              · exact keepChar_robots_path c h3
      have hscheme : splitScheme ('/' :: '/' :: (n ++ "/robots.txt".data)) =
          ([], '/' :: '/' :: (n ++ "/robots.txt".data)) :=
        splitScheme_head_fail '/' _ (by decide)
      have hnet : splitNetloc ('/' :: '/' :: (n ++ "/robots.txt".data)) =
          (n, "/robots.txt".data) := by
        rw [robots_path_cons]
        exact splitNetloc_cc n _ hn_pred
      simp only [urlsplit, hsan, hscheme, hnet]
      simp only [ParseResult.mk.injEq]
      refine ⟨?_, ?_, ?_, ?_, ?_, ?_⟩ <;> trivial
    · rw [urlunparse_robots_sn s n hne hn]
      apply urlparse_of_urlsplit_robots
      obtain ⟨a, s', rfl⟩ : ∃ a s', s = a :: s' := by
        cases s with
        | nil => exact absurd rfl hne
        | cons x t => exact ⟨x, t, rfl⟩
      simp only [List.headI] at hhead
      have hsan : sanitizeUrl ((a :: s') ++ ':' :: '/' :: '/' :: (n ++ "/robots.txt".data)) =
          (a :: s') ++ ':' :: '/' :: '/' :: (n ++ "/robots.txt".data) := by
        apply sanitize_eq_self
        · intro c hc
          simp only [List.cons_append, List.head?_cons, Option.some.injEq] at hc
          subst hc
          exact notC0_of_alpha a hhead
        · intro c hc
          rcases List.mem_append.mp hc with h1 | h1
          · exact keepChar_of_schemeChar c (hall c h1)
          · rcases List.mem_cons.mp h1 with rfl | h2
            · decide
            · rcases List.mem_cons.mp h2 with rfl | h3
              · decide
              · rcases List.mem_cons.mp h3 with rfl | h4
                · decide
                · rcases List.mem_append.mp h4 with h5 | h5
                  · exact hn_keep c h5
                  · exact keepChar_robots_path c h5
      have hscheme : splitScheme ((a :: s') ++ ':' :: '/' :: '/' :: (n ++ "/robots.txt".data)) =
          (a :: s', '/' :: '/' :: (n ++ "/robots.txt".data)) :=
        splitScheme_append (a :: s') _ hne hall (by simpa [List.headI] using hhead) hlow
      have hnet : splitNetloc ('/' :: '/' :: (n ++ "/robots.txt".data)) =
          (n, "/robots.txt".data) := by
        rw [robots_path_cons]
        exact splitNetloc_cc n _ hn_pred
      simp only [urlsplit, hsan, hscheme, hnet]
      simp only [ParseResult.mk.injEq]
      refine ⟨?_, ?_, ?_, ?_, ?_, ?_⟩ <;> trivial

/-! Helper lemmas for the pipeline claims. -/

theorem lowerStr_idem (l : List Char) : lowerStr (lowerStr l) = lowerStr l := by
  unfold lowerStr
  rw [List.map_map]
  exact List.map_congr_left (fun c _ => toLower_idem c)

theorem check_always_ok (env : NetEnv) (url user_agent : List Char) :
    check_may_autonomously_fetch_url env url user_agent = Except.ok () := by
  simp only [check_may_autonomously_fetch_url]
  cases h : env.robotsOutcome (get_robots_txt_url url) with
  | error e => rfl
  | ok b => cases b <;> rfl

theorem paginate_length_le (content : List Char) (start_index max_length : Nat) :
    (paginate content start_index max_length).length ≤ max_length := by
  unfold paginate
  split
  · simp
  · rw [List.length_take]
    omega

/-- C9: for every target URL, the robots-document URL keeps the scheme and
host (netloc) of the target URL and replaces its path, params, query and
fragment with the single path /robots.txt: reparsing the derived URL yields
exactly the scheme and netloc of the target with path /robots.txt and empty
params, query and fragment, so a robots decision is always scoped to the
host of the target itself. -/
theorem C9_robots_url_host_scoped (url : List Char) :
    urlparse (get_robots_txt_url url) =
      ⟨(urlparse url).scheme, (urlparse url).netloc, "/robots.txt".data, [], [], []⟩ := by
  have hs := urlsplit_scheme_spec url
  have hn_pred := urlsplit_netloc_pred url
  have hn_keep := urlsplit_netloc_keep url
  simp only [get_robots_txt_url, urlparse_scheme_eq, urlparse_netloc_eq]
  exact robots_reparse _ _ hs hn_pred hn_keep

/-- C1: the claim says a resolved disallowed verdict aborts the fetch with a
policy error before any target retrieval; the code instead swallows its own
ValueError in the blanket except clause, so with robots.txt retrieved,
parsed, and resolving can_fetch to false, the check still returns normally
and fetch retrieves and returns the target content. -/
theorem C1_robots_denial_swallowed :
    check_may_autonomously_fetch_url robotsDeniedEnv ("http://example.com/private".data)
        DEFAULT_USER_AGENT_AUTONOMOUS = Except.ok () ∧
    fetch robotsDeniedEnv ("http://example.com/private".data) 5000 0 false =
      Except.ok ("TARGET PAGE CONTENT".data) := by
  exact ⟨rfl, rfl⟩

/-- C2 counterexample: on normalized text 0123456789ABCDEF with start index
3 and max length 10 the pagination step does not return 3456789AB. -/
theorem C2_counterexample :
    paginate ("0123456789ABCDEF".data) 3 10 ≠ "3456789AB".data := by decide

/-- C2 (amended): on normalized text 0123456789ABCDEF with start index 3
and max length 10 the pagination step returns exactly 3456789ABC, the ten
characters starting at offset 3. -/
theorem C2_pagination_scenario :
    paginate ("0123456789ABCDEF".data) 3 10 = "3456789ABC".data := by decide

/-- C3: whenever the robots retrieval or parse itself fails, the robots
check still returns normally (allowed) and fetch proceeds to the target
retrieval: its result is exactly determined by the outcome of the target
fetch, never by a robots abort. -/
theorem C3_fail_open (env : NetEnv) (url : List Char) (max_length start_index : Nat)
    (raw : Bool)
    (h : env.robotsOutcome (get_robots_txt_url url) = Except.error ()) :
    check_may_autonomously_fetch_url env url DEFAULT_USER_AGENT_AUTONOMOUS = Except.ok () ∧
    (∀ content, fetch_url env DEFAULT_USER_AGENT_AUTONOMOUS raw = Except.ok content →
      fetch env url max_length start_index raw =
        Except.ok (paginate content start_index max_length)) ∧
    (∀ e, fetch_url env DEFAULT_USER_AGENT_AUTONOMOUS raw = Except.error e →
      fetch env url max_length start_index raw = Except.error e) := by
  refine ⟨check_always_ok env url _, ?_, ?_⟩
  · intro content hc
    simp only [fetch, check_always_ok, hc]
  · intro e he
    simp only [fetch, check_always_ok, he]

/-- C3 witness: with a connection-refused robots outcome and a 200 target
response, fetch returns the target body. -/
theorem C3_fail_open_witness :
    robotsErrorEnv.robotsOutcome (get_robots_txt_url ("http://example.com/page".data)) =
      Except.error () ∧
    fetch robotsErrorEnv ("http://example.com/page".data) 5000 0 false =
      Except.ok ("HELLO WORLD".data) := by
  refine ⟨rfl, ?_⟩
  exact (C3_fail_open robotsErrorEnv ("http://example.com/page".data) 5000 0 false
    rfl).2.1 ("HELLO WORLD".data) rfl

/-- C4: for text, a start index below the text length and a positive max
length, the pagination step returns exactly the substring of length
min(maxLength, length - startIndex) beginning at the start index. -/
theorem C4_slice_exact (text : List Char) (start_index max_length : Nat)
    (hs : start_index < text.length) (hm : 0 < max_length) :
    paginate text start_index max_length =
      (text.drop start_index).take (min max_length (text.length - start_index)) ∧
    (paginate text start_index max_length).length =
      min max_length (text.length - start_index) := by
  unfold paginate
  rw [if_neg (by omega)]
  constructor
  · rw [← List.length_drop, ← List.take_take, List.take_length]
  · rw [List.length_take, List.length_drop]

/-- C4 witness at a concrete slice. -/
theorem C4_slice_exact_witness :
    3 < ("0123456789ABCDEF".data).length ∧ 0 < 10 ∧
    paginate ("0123456789ABCDEF".data) 3 10 =
      (("0123456789ABCDEF".data).drop 3).take
        (min 10 (("0123456789ABCDEF".data).length - 3)) := by
  refine ⟨by decide, by decide, ?_⟩
  exact (C4_slice_exact ("0123456789ABCDEF".data) 3 10 (by decide) (by decide)).1

/-- C5: once the start index reaches the text length, the pagination step
returns the empty string (a total function, no error). -/
theorem C5_slice_past_end (text : List Char) (start_index max_length : Nat)
    (h : text.length ≤ start_index) :
    paginate text start_index max_length = [] := by
  unfold paginate
  rw [if_pos h]

/-- C5 witness at a concrete out-of-range start index. -/
theorem C5_slice_past_end_witness :
    ("abc".data).length ≤ 7 ∧ paginate ("abc".data) 7 5 = [] :=
  ⟨by decide, C5_slice_past_end ("abc".data) 7 5 (by decide)⟩

/-- C6 counterexample: at a concrete 404 response, the surfaced fetch error
carries the status code and the full response body; the carried body equals
the whole body, so it is not a truncated copy of the response body as the
claim states. -/
theorem C6_counterexample :
    fetch_url notFoundEnv DEFAULT_USER_AGENT_AUTONOMOUS false =
      Except.error (FetchError.httpStatus 404 ("NOT FOUND BODY".data)) ∧
    isTruncatedCopyOf ("NOT FOUND BODY".data) notFoundResponse.body = false := by
  exact ⟨rfl, by decide⟩

/-- C6 (amended): every response with a non-success status code (400 to
599, the range on which raise_for_status raises) surfaces a fetch error
carrying the status code and the full, untruncated response body. -/
theorem C6_http_status_error (env : NetEnv) (user_agent : List Char) (force_raw : Bool)
    (h : 400 ≤ env.targetResponse.statusCode ∧ env.targetResponse.statusCode < 600) :
    fetch_url env user_agent force_raw =
      Except.error (FetchError.httpStatus env.targetResponse.statusCode
        env.targetResponse.body) := by
  simp only [fetch_url]
  rw [if_pos h]

/-- C6 witness at the concrete 404 response. -/
theorem C6_http_status_error_witness :
    (400 ≤ notFoundEnv.targetResponse.statusCode ∧
      notFoundEnv.targetResponse.statusCode < 600) ∧
    fetch_url notFoundEnv DEFAULT_USER_AGENT_AUTONOMOUS false =
      Except.error (FetchError.httpStatus 404 ("NOT FOUND BODY".data)) := by
  refine ⟨by decide, ?_⟩
  exact C6_http_status_error notFoundEnv DEFAULT_USER_AGENT_AUTONOMOUS false (by decide)

/-- C7: classification selects Html exactly when the lowercased
content-type header contains the substring text/html; an absent header
selects Other; classification is insensitive to letter case of the header;
and whenever classification is Other (and the status is a success), the
returned text is the response body verbatim regardless of the raw flag. -/
theorem C7_classification :
    (∀ ct, classify (some ct) = ContentClass.Html ↔
      containsSub ("text/html".data) (lowerStr ct) = true) ∧
    classify none = ContentClass.Other ∧
    (∀ ct, classify (some (lowerStr ct)) = classify (some ct)) ∧
    (∀ env : NetEnv, ∀ ua : List Char, ∀ raw : Bool,
      classify env.targetResponse.contentType = ContentClass.Other →
      ¬(400 ≤ env.targetResponse.statusCode ∧ env.targetResponse.statusCode < 600) →
      fetch_url env ua raw = Except.ok env.targetResponse.body) := by
  refine ⟨?_, rfl, ?_, ?_⟩
  · intro ct
    simp only [classify, Option.getD_some]
    split
    · rename_i hcond
      simp [hcond]
    · rename_i hcond
      simp only [Bool.not_eq_true] at hcond
      simp [hcond]
  · intro ct
    simp only [classify, Option.getD_some, lowerStr_idem]
  · intro env ua raw hclass hstatus
    have hcond : containsSub ("text/html".data)
        (lowerStr (env.targetResponse.contentType.getD [])) = false := by
      cases hx : containsSub ("text/html".data)
          (lowerStr (env.targetResponse.contentType.getD [])) with
      | true =>
        exfalso
        simp only [classify, hx, if_true] at hclass
        exact ContentClass.noConfusion hclass
      | false => rfl
    simp only [fetch_url]
    rw [if_neg hstatus]
    simp [hcond]

/-- C7 witness: a JSON response is classified Other and, even with the raw
flag set, the body is returned verbatim. -/
theorem C7_classification_witness :
    classify jsonEnv.targetResponse.contentType = ContentClass.Other ∧
    fetch_url jsonEnv DEFAULT_USER_AGENT_AUTONOMOUS true =
      Except.ok ("JSON BODY".data) := by
  refine ⟨by decide, ?_⟩
  exact C7_classification.2.2.2 jsonEnv DEFAULT_USER_AGENT_AUTONOMOUS true
    (by decide) (by decide)

/-- C8: whenever extraction yields no usable content (an absent or empty
content field), the simplifier returns the fixed sentinel failure string
rather than raising, so the simplification step always returns a string. -/
theorem C8_sentinel (readability : List Char → Option (List Char))
    (mdify : List Char → List Char) (html : List Char)
    (h : readability html = none ∨ readability html = some []) :
    extract_content_from_html readability mdify html = simplificationSentinel := by
  rcases h with h | h
  · simp only [extract_content_from_html, h]
  · simp [extract_content_from_html, h]

/-- C8 witness with an extractor that yields no content. -/
theorem C8_sentinel_witness :
    ((fun _ : List Char => (none : Option (List Char))) ("<html></html>".data) = none ∨
      (fun _ : List Char => (none : Option (List Char))) ("<html></html>".data) =
        some []) ∧
    extract_content_from_html (fun _ => none) (fun l => l) ("<html></html>".data) =
      simplificationSentinel := by
  refine ⟨Or.inl rfl, ?_⟩
  exact C8_sentinel (fun _ => none) (fun l => l) ("<html></html>".data) (Or.inl rfl)

/-- C10: every string returned by fetch has length at most max_length. -/
theorem C10_result_bounded (env : NetEnv) (url : List Char)
    (max_length start_index : Nat) (raw : Bool) (out : List Char)
    (hm : 0 < max_length)
    (h : fetch env url max_length start_index raw = Except.ok out) :
    out.length ≤ max_length := by
  simp only [fetch, check_always_ok] at h
  cases hf : fetch_url env DEFAULT_USER_AGENT_AUTONOMOUS raw with
  | error e =>
    simp only [hf] at h
    exact Except.noConfusion h
  | ok content =>
    simp only [hf, Except.ok.injEq] at h
    subst h
    exact paginate_length_le content start_index max_length

/-- C10 witness with a short body and max length five. -/
theorem C10_result_bounded_witness : 0 < 5 ∧ ("abcde".data).length ≤ 5 := by
  refine ⟨by decide, ?_⟩
  exact C10_result_bounded shortBodyEnv ("http://example.com/".data) 5 0 false
    ("abcde".data) (by decide) (by rfl)
